import Mathlib

/-!
Dense Wi-Fi scenario (wifi_compare.cc): configuration policy and metrics aggregation.

A shallow embedding of the parts of wifi_compare.cc that decide the scenario
configuration (density adjustment, rate-control choice, per-station ports and start
times) and the metrics computed from the per-flow statistics after the run.

Conventions of the embedding:

* double values are rationals: arithmetic is exact, there is no rounding and no
  overflow to infinity.  A double division whose divisor is zero has no finite
  result (IEEE-754 yields an infinity or a NaN); it is modelled by none.
* ComputeJainFairness is embedded a second time, as ComputeJainFairnessDouble, in
  IEEE-754 binary64 arithmetic (type Dbl, round to nearest, ties to even), for the
  properties that depend on the rounded value the program returns.
* uint32_t / uint64_t values are natural numbers; where the program adds into a
  64-bit counter the sum is reduced modulo 2 ^ 64, and the 16-bit port argument is
  reduced modulo 2 ^ 16.
* for loops over a container are folds over a list, in iteration order; a counted
  loop over i in [0, nStas) is a map over List.range nStas.
-/

namespace WifiCompare

/-! ## `ComputeJainFairness` -/

/-- The accumulators `sum` and `sumSq` of `ComputeJainFairness`. -/
structure JainAcc where
  sum : ℚ
  sumSq : ℚ

/-- The body of `for (double v : x) { sum += v; sumSq += v * v; }`. -/
def jainStep (acc : JainAcc) (v : ℚ) : JainAcc :=
  { sum := acc.sum + v, sumSq := acc.sumSq + v * v }

/-- The loop of `ComputeJainFairness`, started from `sum = 0.0, sumSq = 0.0`. -/
def jainLoop (x : List ℚ) : JainAcc :=
  x.foldl jainStep { sum := 0.0, sumSq := 0.0 }

/-- The divisor `x.size() * sumSq + 1e-12` of `ComputeJainFairness`. -/
def jainDenominator (x : List ℚ) : ℚ :=
  (x.length : ℚ) * (jainLoop x).sumSq + 1e-12

/-- `static double ComputeJainFairness(const std::vector<double>& x)`, in exact
arithmetic. -/
def ComputeJainFairness (x : List ℚ) : ℚ :=
  if x.isEmpty then 0.0
  else ((jainLoop x).sum * (jainLoop x).sum) / jainDenominator x

/-! ## `ComputeJainFairness` in binary64 arithmetic -/

/-- An IEEE-754 binary64 value.  `fin neg m e` is the finite value
`(-1)^neg * m * 2^e`, kept in canonical form: `2^52 ≤ m < 2^53` and `-1074 ≤ e ≤ 971`
for a normal number, `m < 2^52` and `e = -1074` for a subnormal one, and `m = 0`,
`e = 0` for a zero. -/
inductive Dbl where
  | fin (neg : Bool) (m : Nat) (e : Int)
  | inf (neg : Bool)
  | nan
  deriving DecidableEq, Repr

/-- Number of binary digits of `n`, computed with `fuel` steps (`fuel = n` suffices). -/
def bitLen : Nat → Nat → Nat
  | 0, _ => 0
  | fuel + 1, n => if n = 0 then 0 else bitLen fuel (n / 2) + 1

/-- The binary64 value nearest to `(-1)^neg * p / q` (for `q > 0`), ties to even:
`E` is the binary exponent of `p / q`, `ex` the exponent of the last mantissa digit,
`qt` and `r` the quotient and remainder of `p / q` in units of `2^ex`.  Values that
round to `2^1024` or more become an infinity. -/
def Dbl.round (neg : Bool) (p q : Nat) : Dbl :=
  if p = 0 then Dbl.fin neg 0 0
  else
    let k : Int := (bitLen p p : Int) - (bitLen q q : Int)
    let ge : Bool :=
      if 0 ≤ k then decide (q * 2 ^ k.toNat ≤ p) else decide (q ≤ p * 2 ^ (-k).toNat)
    let E : Int := if ge then k else k - 1
    let ex : Int := max (E - 52) (-1074)
    let N : Nat := if 0 ≤ ex then p else p * 2 ^ (-ex).toNat
    let D : Nat := if 0 ≤ ex then q * 2 ^ ex.toNat else q
    let qt : Nat := N / D
    let r : Nat := N % D
    let m : Nat := if D < 2 * r ∨ (2 * r = D ∧ qt % 2 = 1) then qt + 1 else qt
    let m1 : Nat := if m = 2 ^ 53 then 2 ^ 52 else m
    let ex1 : Int := if m = 2 ^ 53 then ex + 1 else ex
    if m1 = 0 then Dbl.fin neg 0 0
    else if 971 < ex1 then Dbl.inf neg
    else Dbl.fin neg m1 ex1

/-- The binary64 value nearest to `(-1)^neg * p * 2^e`. -/
def Dbl.roundScaled (neg : Bool) (p : Nat) (e : Int) : Dbl :=
  if 0 ≤ e then Dbl.round neg (p * 2 ^ e.toNat) 1 else Dbl.round neg p (2 ^ (-e).toNat)

/-- The integer `(-1)^neg * m`. -/
def Dbl.signed (neg : Bool) (m : Nat) : Int := if neg then -(m : Int) else (m : Int)

/-- Binary64 addition: the exact sum, rounded; an exact zero sum is `+0` unless both
operands are `-0`. -/
def Dbl.add : Dbl → Dbl → Dbl
  | Dbl.nan, _ => Dbl.nan
  | _, Dbl.nan => Dbl.nan
  | Dbl.inf s, Dbl.inf t => if s = t then Dbl.inf s else Dbl.nan
  | Dbl.inf s, Dbl.fin _ _ _ => Dbl.inf s
  | Dbl.fin _ _ _, Dbl.inf t => Dbl.inf t
  | Dbl.fin s1 m1 e1, Dbl.fin s2 m2 e2 =>
    let e : Int := min e1 e2
    let c : Int := Dbl.signed s1 m1 * 2 ^ (e1 - e).toNat + Dbl.signed s2 m2 * 2 ^ (e2 - e).toNat
    if c = 0 then Dbl.fin (s1 && s2 && decide (m1 = 0) && decide (m2 = 0)) 0 0
    else Dbl.roundScaled (decide (c < 0)) c.natAbs e

/-- Binary64 multiplication: the exact product, rounded. -/
def Dbl.mul : Dbl → Dbl → Dbl
  | Dbl.nan, _ => Dbl.nan
  | _, Dbl.nan => Dbl.nan
  | Dbl.inf s, Dbl.inf t => Dbl.inf (xor s t)
  | Dbl.inf s, Dbl.fin t m _ => if m = 0 then Dbl.nan else Dbl.inf (xor s t)
  | Dbl.fin s m _, Dbl.inf t => if m = 0 then Dbl.nan else Dbl.inf (xor s t)
  | Dbl.fin s1 m1 e1, Dbl.fin s2 m2 e2 => Dbl.roundScaled (xor s1 s2) (m1 * m2) (e1 + e2)

/-- Binary64 division: the exact quotient, rounded; `0/0` and `inf/inf` are NaN and a
nonzero value over zero is an infinity. -/
def Dbl.div : Dbl → Dbl → Dbl
  | Dbl.nan, _ => Dbl.nan
  | _, Dbl.nan => Dbl.nan
  | Dbl.inf _, Dbl.inf _ => Dbl.nan
  | Dbl.inf s, Dbl.fin t _ _ => Dbl.inf (xor s t)
  | Dbl.fin s _ _, Dbl.inf t => Dbl.fin (xor s t) 0 0
  | Dbl.fin s1 m1 e1, Dbl.fin s2 m2 e2 =>
    if m2 = 0 then (if m1 = 0 then Dbl.nan else Dbl.inf (xor s1 s2))
    else if 0 ≤ e1 - e2 then Dbl.round (xor s1 s2) (m1 * 2 ^ (e1 - e2).toNat) m2
    else Dbl.round (xor s1 s2) m1 (m2 * 2 ^ (e2 - e1).toNat)

/-- Conversion of an unsigned integer (`x.size()`) to binary64. -/
def Dbl.ofNat (n : Nat) : Dbl := Dbl.round false n 1

/-- The comparison `a < b` of two binary64 values (false when either is NaN). -/
def Dbl.lt : Dbl → Dbl → Bool
  | Dbl.nan, _ => false
  | _, Dbl.nan => false
  | Dbl.inf s, Dbl.inf t => s && !t
  | Dbl.inf s, Dbl.fin _ _ _ => s
  | Dbl.fin _ _ _, Dbl.inf t => !t
  | Dbl.fin s1 m1 e1, Dbl.fin s2 m2 e2 =>
    decide (Dbl.signed s1 m1 * 2 ^ (e1 - min e1 e2).toNat
      < Dbl.signed s2 m2 * 2 ^ (e2 - min e1 e2).toNat)

/-- The rational value of a finite binary64 value. -/
def Dbl.toRat : Dbl → Option ℚ
  | Dbl.fin neg m e => some ((if neg then -1 else 1) * (m : ℚ) * (2 : ℚ) ^ e)
  | Dbl.inf _ => none
  | Dbl.nan => none

/-- The accumulators `sum` and `sumSq` of `ComputeJainFairness`, as doubles. -/
structure JainAccD where
  sum : Dbl
  sumSq : Dbl

/-- The body of `for (double v : x) { sum += v; sumSq += v * v; }`, each operation
rounded. -/
def jainStepD (acc : JainAccD) (v : Dbl) : JainAccD :=
  { sum := acc.sum.add v, sumSq := acc.sumSq.add (v.mul v) }

/-- `static double ComputeJainFairness(const std::vector<double>& x)` in binary64
arithmetic: `0.0` for the empty vector, otherwise
`(sum * sum) / (x.size() * sumSq + 1e-12)` with every operation rounded and `1e-12`
the double nearest to `10^-12`. -/
def ComputeJainFairnessDouble (x : List Dbl) : Dbl :=
  if x.isEmpty then Dbl.fin false 0 0
  else
    let acc := x.foldl jainStepD { sum := Dbl.fin false 0 0, sumSq := Dbl.fin false 0 0 }
    (acc.sum.mul acc.sum).div
      (((Dbl.ofNat x.length).mul acc.sumSq).add (Dbl.round false 1 (10 ^ 12)))

/-! ## Scenario configuration (first half of `main`) -/

/-- What the block "Adjust parameters for dense scenarios" leaves behind: the value
given to `RtsCtsThreshold` by `Config::SetDefault` (`none` when the call is not made)
and the value of `packetSize` afterwards. -/
structure DenseAdjust where
  rtsCtsThreshold : Option Nat
  packetSize : Nat
  deriving DecidableEq, Repr

/-- The block `if (nStas > 30) { ... }` of `main`. -/
def adjustDense (nStas packetSize : Nat) : DenseAdjust :=
  if nStas > 30 then
    { rtsCtsThreshold := some 1000
      packetSize := if packetSize > 512 then 512 else packetSize }
  else
    { rtsCtsThreshold := none, packetSize := packetSize }

/-- The two station managers `main` can hand to `SetRemoteStationManager`. -/
inductive RemoteStationManager where
  | IdealWifiManager
  | MinstrelHtWifiManager
  deriving DecidableEq, Repr

/-- The block `if (nStas > 50) { ... } else { ... }` of `main`. -/
def selectRemoteStationManager (nStas : Nat) : RemoteStationManager :=
  if nStas > 50 then RemoteStationManager.IdealWifiManager
  else RemoteStationManager.MinstrelHtWifiManager

/-- `uint16_t basePort = 9000;`. -/
def basePort : Nat := 9000

/-- The port argument `basePort + i` as the callee receives it: the sum is computed
in 32-bit unsigned arithmetic (`i` is a `uint32_t`) and converted to the `uint16_t`
port parameter of `UdpServerHelper` / `InetSocketAddress`. -/
def destPort (i : Nat) : Nat :=
  ((basePort + i) % 2 ^ 32) % 2 ^ 16

/-- Ports of the servers installed on the AP, in loop order, for either transport. -/
def serverPorts (useUdp : Bool) (nStas : Nat) : List Nat :=
  if useUdp then (List.range nStas).map destPort
  else (List.range nStas).map destPort

/-- Destination ports of the station clients, in loop order, for either transport. -/
def clientPorts (useUdp : Bool) (nStas : Nat) : List Nat :=
  if useUdp then (List.range nStas).map destPort
  else (List.range nStas).map destPort

/-- `double startTime = 1.5 + (i * 0.01);`. -/
def startTime (i : Nat) : ℚ :=
  1.5 + ((i : ℚ) * 0.01)

/-- Start times handed to `SetStartTime`, in loop order, for either transport. -/
def clientStartTimes (useUdp : Bool) (nStas : Nat) : List ℚ :=
  if useUdp then (List.range nStas).map startTime
  else (List.range nStas).map startTime

/-! ## Metrics (second half of `main`) -/

/-- The fields of `FlowMonitor::FlowStats` that `main` reads; `delaySum` is the value
of `s.delaySum.GetSeconds()`. -/
structure FlowStats where
  txPackets : Nat
  rxPackets : Nat
  rxBytes : Nat
  lostPackets : Nat
  delaySum : ℚ

/-- The local variables updated by the loop over the flow statistics. -/
structure Totals where
  aggThroughputMbps : ℚ
  totalDelaySec : ℚ
  totalRxBytes : Nat
  totalRxPackets : Nat
  totalTxPackets : Nat
  totalLostPackets : Nat
  perFlowMbps : List ℚ

/-- The initial values of the loop variables. -/
def Totals.init : Totals :=
  { aggThroughputMbps := 0.0, totalDelaySec := 0.0, totalRxBytes := 0,
    totalRxPackets := 0, totalTxPackets := 0, totalLostPackets := 0, perFlowMbps := [] }

/-- Division of two `double`s: no finite result when the divisor is zero. -/
def divDouble (a b : ℚ) : Option ℚ :=
  if b = 0 then none else some (a / b)

/-- The five `+=` statements that end the loop body. -/
def addCounters (t : Totals) (s : FlowStats) : Totals :=
  { t with
    totalDelaySec := t.totalDelaySec + s.delaySum
    totalRxBytes := (t.totalRxBytes + s.rxBytes) % 2 ^ 64
    totalRxPackets := (t.totalRxPackets + s.rxPackets) % 2 ^ 64
    totalTxPackets := (t.totalTxPackets + s.txPackets) % 2 ^ 64
    totalLostPackets := (t.totalLostPackets + s.lostPackets) % 2 ^ 64 }

/-- One iteration of `for (const auto& kv : stats) { ... }` (the printing left out). -/
def flowStep (effectiveDuration : ℚ) (t : Totals) (s : FlowStats) : Option Totals :=
  if s.rxPackets > 0 then
    match divDouble ((s.rxBytes : ℚ) * 8.0) (effectiveDuration * 1e6) with
    | none => none
    | some rxMbps =>
      some (addCounters
        { t with
          perFlowMbps := t.perFlowMbps ++ [rxMbps]
          aggThroughputMbps := t.aggThroughputMbps + rxMbps } s)
  else
    some (addCounters t s)

/-- The loop over the flow statistics, in the order of the map's keys. -/
def flowLoop (effectiveDuration : ℚ) : Totals → List FlowStats → Option Totals
  | t, [] => some t
  | t, s :: rest =>
    match flowStep effectiveDuration t s with
    | none => none
    | some t1 => flowLoop effectiveDuration t1 rest

/-- The figures printed in the summary block. -/
structure Report where
  aggThroughputMbps : ℚ
  avgDelayMs : ℚ
  lossPct : ℚ
  fairness : ℚ
  totalRxPackets : Nat
  totalTxPackets : Nat
  successRate : ℚ
  deriving DecidableEq

/-- The computations after the loop, up to the printed summary. -/
def summarize (t : Totals) : Report :=
  { aggThroughputMbps := t.aggThroughputMbps
    avgDelayMs :=
      if t.totalRxPackets > 0 then (t.totalDelaySec / (t.totalRxPackets : ℚ)) * 1000.0
      else 0.0
    lossPct :=
      if t.totalTxPackets > 0 then
        (100.0 * (t.totalLostPackets : ℚ)) / (t.totalTxPackets : ℚ)
      else 0.0
    fairness := ComputeJainFairness t.perFlowMbps
    totalRxPackets := t.totalRxPackets
    totalTxPackets := t.totalTxPackets
    successRate :=
      if t.totalTxPackets > 0 then
        (100.0 * (t.totalRxPackets : ℚ)) / (t.totalTxPackets : ℚ)
      else 0 }

/-- The section "Compute metrics" of `main`: from `simTime` and the flow statistics
to the printed figures; `none` when a division by zero is executed. -/
def aggregate (simTime : ℚ) (stats : List FlowStats) : Option Report :=
  let effectiveDuration := simTime - 2.0
  match flowLoop effectiveDuration Totals.init stats with
  | none => none
  | some t => some (summarize t)

/-! ## The aggregator as the specification words it -/

/-- Per-flow throughputs as specified: only flows with `rxPackets > 0`, each
`rxBytes × 8 / (effectiveDuration × 1e6)`. -/
def specPerFlowMbps (effectiveDuration : ℚ) (stats : List FlowStats) : List ℚ :=
  (stats.filter (fun s => decide (0 < s.rxPackets))).map
    (fun s => ((s.rxBytes : ℚ) * 8) / (effectiveDuration * 1000000))

/-- Sum of a counter over all records. -/
def specTotal (f : FlowStats → Nat) (stats : List FlowStats) : Nat :=
  (stats.map f).sum

/-- The report as specified, with `effectiveDuration = simDuration − 2.0`. -/
def specReport (simDuration : ℚ) (stats : List FlowStats) : Report :=
  let effectiveDuration := simDuration - 2
  let totalRx := specTotal FlowStats.rxPackets stats
  let totalTx := specTotal FlowStats.txPackets stats
  let totalLost := specTotal FlowStats.lostPackets stats
  { aggThroughputMbps := (specPerFlowMbps effectiveDuration stats).sum
    avgDelayMs :=
      if 0 < totalRx then (stats.map FlowStats.delaySum).sum / (totalRx : ℚ) * 1000 else 0
    lossPct := if 0 < totalTx then 100 * (totalLost : ℚ) / (totalTx : ℚ) else 0
    fairness := ComputeJainFairness (specPerFlowMbps effectiveDuration stats)
    totalRxPackets := totalRx
    totalTxPackets := totalTx
    successRate := if 0 < totalTx then 100 * (totalRx : ℚ) / (totalTx : ℚ) else 0 }

/-- The 64-bit packet counters do not wrap: each total over all records is below
`2 ^ 64` (as it is for at most `2 ^ 32` flows with 32-bit packet counts). -/
def CountersFit (stats : List FlowStats) : Prop :=
  specTotal FlowStats.rxPackets stats < 2 ^ 64 ∧
  specTotal FlowStats.txPackets stats < 2 ^ 64 ∧
  specTotal FlowStats.lostPackets stats < 2 ^ 64

instance decidableCountersFit (stats : List FlowStats) : Decidable (CountersFit stats) := by
  unfold CountersFit; infer_instance

/-- The record of the specification's worked example. -/
def exampleFlow : FlowStats :=
  { txPackets := 100, rxPackets := 100, rxBytes := 125000, lostPackets := 0, delaySum := 0.1 }


/-! ## Quantities used to state the properties -/

/-- Sum of the squares of the elements. -/
def sumSqOf (x : List ℚ) : ℚ := (x.map (fun v => v * v)).sum

/-- Sum of the squared distances of the elements to `a`. -/
def sqDev (a : ℚ) (x : List ℚ) : ℚ := (x.map (fun v => (v - a) * (v - a))).sum

/-- The Cauchy–Schwarz gap `n · Σx² − (Σx)²` of a list. -/
def csGap (x : List ℚ) : ℚ := (x.length : ℚ) * sumSqOf x - x.sum * x.sum

/-- The stagger of station `i`: its start time less the start time `1.5` of
station 0. -/
def startOffset (i : Nat) : ℚ := startTime i - 1.5

/-! ## Auxiliary facts about sums over lists -/

theorem foldl_jainStep (x : List ℚ) (acc : JainAcc) :
    x.foldl jainStep acc = { sum := acc.sum + x.sum, sumSq := acc.sumSq + sumSqOf x } := by
  induction x generalizing acc with
  | nil => simp [sumSqOf]
  | cons a xs ih =>
    simp only [List.foldl_cons, ih, jainStep, sumSqOf, List.map_cons, List.sum_cons]
    congr 1 <;> ring

theorem jainLoop_sum (x : List ℚ) : (jainLoop x).sum = x.sum := by
  simp [jainLoop, foldl_jainStep]; norm_num

theorem jainLoop_sumSq (x : List ℚ) : (jainLoop x).sumSq = sumSqOf x := by
  simp [jainLoop, foldl_jainStep]; norm_num

theorem sumSqOf_nonneg (x : List ℚ) : 0 ≤ sumSqOf x := by
  unfold sumSqOf
  apply List.sum_nonneg
  intro v hv
  obtain ⟨u, -, rfl⟩ := List.mem_map.1 hv
  exact mul_self_nonneg u

theorem sqDev_nonneg (a : ℚ) (x : List ℚ) : 0 ≤ sqDev a x := by
  unfold sqDev
  apply List.sum_nonneg
  intro v hv
  obtain ⟨u, -, rfl⟩ := List.mem_map.1 hv
  exact mul_self_nonneg _

theorem sqDev_eq (a : ℚ) (x : List ℚ) :
    sqDev a x = sumSqOf x - 2 * a * x.sum + (x.length : ℚ) * (a * a) := by
  induction x with
  | nil => simp [sqDev, sumSqOf]
  | cons b xs ih =>
    simp only [sqDev, sumSqOf, List.map_cons, List.sum_cons, List.length_cons,
      Nat.cast_add, Nat.cast_one] at ih ⊢
    rw [ih]; ring

theorem sqDev_eq_zero_iff (a : ℚ) (x : List ℚ) : sqDev a x = 0 ↔ ∀ v ∈ x, v = a := by
  induction x with
  | nil => simp [sqDev]
  | cons b xs ih =>
    have hcons : sqDev a (b :: xs) = (b - a) * (b - a) + sqDev a xs := by
      simp [sqDev]
    have h1 : 0 ≤ (b - a) * (b - a) := mul_self_nonneg _
    have h2 := sqDev_nonneg a xs
    rw [hcons]
    constructor
    · intro h
      have hb : (b - a) * (b - a) = 0 := by linarith
      have hx : sqDev a xs = 0 := by linarith
      intro v hv
      rcases List.mem_cons.1 hv with rfl | hv
      · have := mul_self_eq_zero.1 hb
        linarith
      · exact ih.1 hx v hv
    · intro h
      have hb : b = a := h b (List.mem_cons_self _ _)
      have hx : sqDev a xs = 0 := ih.2 (fun v hv => h v (List.mem_cons_of_mem _ hv))
      rw [hx, hb]; ring

theorem csGap_cons (a : ℚ) (x : List ℚ) : csGap (a :: x) = csGap x + sqDev a x := by
  rw [sqDev_eq]
  simp only [csGap, sumSqOf, List.map_cons, List.sum_cons, List.length_cons,
    Nat.cast_add, Nat.cast_one]
  ring

theorem csGap_nonneg (x : List ℚ) : 0 ≤ csGap x := by
  induction x with
  | nil => simp [csGap, sumSqOf]
  | cons a xs ih =>
    rw [csGap_cons]
    have := sqDev_nonneg a xs
    linarith

theorem csGap_eq_zero_iff (x : List ℚ) : csGap x = 0 ↔ ∀ u ∈ x, ∀ v ∈ x, u = v := by
  induction x with
  | nil => simp [csGap, sumSqOf]
  | cons a xs ih =>
    rw [csGap_cons]
    have h1 := csGap_nonneg xs
    have h2 := sqDev_nonneg a xs
    constructor
    · intro h
      have hd : sqDev a xs = 0 := by linarith
      have hall := (sqDev_eq_zero_iff a xs).1 hd
      have key : ∀ w ∈ a :: xs, w = a := by
        intro w hw
        rcases List.mem_cons.1 hw with rfl | hw
        · rfl
        · exact hall w hw
      intro u hu v hv
      rw [key u hu, key v hv]
    · intro h
      have hall : ∀ v ∈ xs, v = a := fun v hv =>
        h v (List.mem_cons_of_mem _ hv) a (List.mem_cons_self _ _)
      have hd : sqDev a xs = 0 := (sqDev_eq_zero_iff a xs).2 hall
      have hg : csGap xs = 0 :=
        ih.2 (fun u hu v hv => by rw [hall u hu, hall v hv])
      rw [hd, hg]; ring

theorem eps_pos : (0 : ℚ) < 1e-12 := by norm_num

theorem jainDenominator_eq (x : List ℚ) :
    jainDenominator x = x.sum * x.sum + csGap x + 1e-12 := by
  simp only [jainDenominator, jainLoop_sumSq, csGap]; ring

theorem jainDenominator_pos (x : List ℚ) : 0 < jainDenominator x := by
  rw [jainDenominator_eq]
  have h1 := csGap_nonneg x
  have h2 := mul_self_nonneg x.sum
  have h3 := eps_pos
  linarith

theorem ComputeJainFairness_of_ne_nil (x : List ℚ) (hx : x ≠ []) :
    ComputeJainFairness x = (x.sum * x.sum) / (x.sum * x.sum + csGap x + 1e-12) := by
  unfold ComputeJainFairness
  have : x.isEmpty = false := by
    cases x with
    | nil => exact absurd rfl hx
    | cons a xs => rfl
  rw [this, ← jainDenominator_eq, jainLoop_sum]
  simp


theorem sum_eq_zero_of_nonneg (x : List ℚ) (h : ∀ v ∈ x, 0 ≤ v) (hs : x.sum = 0) :
    ∀ v ∈ x, v = 0 := by
  induction x with
  | nil => simp
  | cons a xs ih =>
    have ha : 0 ≤ a := h a (List.mem_cons_self _ _)
    have hxs : ∀ v ∈ xs, 0 ≤ v := fun v hv => h v (List.mem_cons_of_mem _ hv)
    have hsum : 0 ≤ xs.sum := List.sum_nonneg hxs
    rw [List.sum_cons] at hs
    intro v hv
    rcases List.mem_cons.1 hv with rfl | hv
    · linarith
    · exact ih hxs (by linarith) v hv

theorem sum_pos_iff_of_nonneg (x : List ℚ) (h : ∀ v ∈ x, 0 ≤ v) :
    x.sum ≠ 0 ↔ ∃ v ∈ x, 0 < v := by
  constructor
  · intro hs
    by_contra hno
    push_neg at hno
    apply hs
    have hz : ∀ v ∈ x, v = 0 := fun v hv => le_antisymm (hno v hv) (h v hv)
    exact List.sum_eq_zero hz
  · rintro ⟨v, hv, hpos⟩ hs
    have := sum_eq_zero_of_nonneg x h hs v hv
    linarith

theorem ComputeJainFairness_nonneg (x : List ℚ) : 0 ≤ ComputeJainFairness x := by
  by_cases hx : x = []
  · subst hx; simp [ComputeJainFairness]; norm_num
  · rw [ComputeJainFairness_of_ne_nil x hx]
    have h1 := csGap_nonneg x
    have h2 := mul_self_nonneg x.sum
    have h3 := eps_pos
    exact div_nonneg h2 (by linarith)

theorem ComputeJainFairness_lt_one (x : List ℚ) : ComputeJainFairness x < 1 := by
  by_cases hx : x = []
  · subst hx; simp [ComputeJainFairness]; norm_num
  · rw [ComputeJainFairness_of_ne_nil x hx]
    have h1 := csGap_nonneg x
    have h2 := mul_self_nonneg x.sum
    have h3 := eps_pos
    rw [div_lt_one (by linarith)]
    linarith

theorem ComputeJainFairness_replicate (n : ℕ) (v : ℚ) (hn : 1 ≤ n) :
    ComputeJainFairness (List.replicate n v) =
      (((n : ℚ) * v) * ((n : ℚ) * v)) / (((n : ℚ) * v) * ((n : ℚ) * v) + 1e-12) := by
  have hne : List.replicate n v ≠ [] := by
    intro h
    have := congrArg List.length h
    simp at this
    omega
  have hgap : csGap (List.replicate n v) = 0 :=
    (csGap_eq_zero_iff _).2 (fun a ha b hb => by
      rw [List.eq_of_mem_replicate ha, List.eq_of_mem_replicate hb])
  rw [ComputeJainFairness_of_ne_nil _ hne, hgap]
  simp [List.sum_replicate]


/-! ## Configuration policy -/

/-- C1: for every station count and requested packet size, above 30 stations the
packet size used is the lesser of the requested one and 512 and `RtsCtsThreshold` is
set to 1000; up to 30 stations the packet size is unchanged and the threshold is not
set.  In particular 31 stations and 1000 bytes give 512 with the threshold set, and
30 stations and 1000 bytes give 1000 with the threshold left alone. -/
theorem adjustDense_policy (nStas packetSize : Nat) :
    (30 < nStas →
        (adjustDense nStas packetSize).packetSize = min packetSize 512 ∧
        (adjustDense nStas packetSize).rtsCtsThreshold = some 1000) ∧
    (nStas ≤ 30 →
        (adjustDense nStas packetSize).packetSize = packetSize ∧
        (adjustDense nStas packetSize).rtsCtsThreshold = none) ∧
    adjustDense 31 1000 = { rtsCtsThreshold := some 1000, packetSize := 512 } ∧
    adjustDense 30 1000 = { rtsCtsThreshold := none, packetSize := 1000 } := by
  refine ⟨?_, ?_, by decide, by decide⟩
  · intro h
    unfold adjustDense
    rw [if_pos h]
    refine ⟨?_, rfl⟩
    show (if packetSize > 512 then 512 else packetSize) = min packetSize 512
    split <;> omega
  · intro h
    unfold adjustDense
    rw [if_neg (by omega)]
    exact ⟨rfl, rfl⟩

/-- Instance of C1 at 31 stations (clamped, threshold set) and at 30 stations
(unchanged, threshold not set), both with 1000 requested bytes. -/
theorem adjustDense_policy_witness :
    ((adjustDense 31 1000).packetSize = min 1000 512 ∧
      (adjustDense 31 1000).rtsCtsThreshold = some 1000) ∧
    ((adjustDense 30 1000).packetSize = 1000 ∧
      (adjustDense 30 1000).rtsCtsThreshold = none) :=
  ⟨(adjustDense_policy 31 1000).1 (by decide), (adjustDense_policy 30 1000).2.1 (by decide)⟩

/-- C2: for every station count the station manager chosen is `IdealWifiManager`
exactly when there are more than 50 stations and `MinstrelHtWifiManager` exactly when
there are at most 50; 51 stations give the former and 50 the latter. -/
theorem selectRemoteStationManager_iff (nStas : Nat) :
    (selectRemoteStationManager nStas = RemoteStationManager.IdealWifiManager ↔ 50 < nStas) ∧
    (selectRemoteStationManager nStas = RemoteStationManager.MinstrelHtWifiManager ↔
      nStas ≤ 50) ∧
    selectRemoteStationManager 51 = RemoteStationManager.IdealWifiManager ∧
    selectRemoteStationManager 50 = RemoteStationManager.MinstrelHtWifiManager := by
  refine ⟨?_, ?_, by decide, by decide⟩
  · unfold selectRemoteStationManager
    by_cases h : nStas > 50
    · simp [h]
    · simp [h]
  · unfold selectRemoteStationManager
    by_cases h : nStas > 50
    · simp [h]
    · simp [h]; omega

theorem getElem_opt_map_range {α : Type} (f : Nat → α) (n i : Nat) (hi : i < n) :
    ((List.range n).map f)[i]? = some (f i) := by
  simp [List.getElem?_map, List.getElem?_range hi]

theorem destPort_inj (i j : Nat) (hi : i < 65536) (hj : j < 65536)
    (h : destPort i = destPort j) : i = j := by
  unfold destPort basePort at h
  omega

/-- C7, as it fails: with 65537 stations, stations 0 and 65536 are distinct and both
are given port 9000. -/
theorem destPort_collision :
    (0 : Nat) < 65537 ∧ (65536 : Nat) < 65537 ∧ (0 : Nat) ≠ 65536 ∧ 65537 < 2 ^ 32 ∧
    destPort 0 = 9000 ∧ destPort 65536 = 9000 := by
  decide

/-- C7, amended: for at most 65536 stations, the servers' and the clients' port of
station `i` is `destPort i` on either transport, and two distinct stations are given
different 16-bit ports. -/
theorem destPort_unique (useUdp : Bool) (nStas i j : Nat) (hn : nStas ≤ 65536)
    (hi : i < nStas) (hj : j < nStas) (hij : i ≠ j) :
    (serverPorts useUdp nStas)[i]? = some (destPort i) ∧
    (clientPorts useUdp nStas)[i]? = some (destPort i) ∧
    (serverPorts useUdp nStas)[j]? = some (destPort j) ∧
    (clientPorts useUdp nStas)[j]? = some (destPort j) ∧
    destPort i ≠ destPort j := by
  refine ⟨?_, ?_, ?_, ?_, ?_⟩
  · cases useUdp <;> simp [serverPorts, getElem_opt_map_range _ _ _ hi]
  · cases useUdp <;> simp [clientPorts, getElem_opt_map_range _ _ _ hi]
  · cases useUdp <;> simp [serverPorts, getElem_opt_map_range _ _ _ hj]
  · cases useUdp <;> simp [clientPorts, getElem_opt_map_range _ _ _ hj]
  · intro h
    exact hij (destPort_inj i j (by omega) (by omega) h)

/-- Instance of the amended C7: among 65536 stations, stations 0 and 65535 get the
distinct ports 9000 and 8999. -/
theorem destPort_unique_witness :
    (65536 : Nat) ≤ 65536 ∧ (0 : Nat) < 65536 ∧ (65535 : Nat) < 65536 ∧ (0 : Nat) ≠ 65535 ∧
    destPort 0 = 9000 ∧ destPort 65535 = 8999 ∧ destPort 0 ≠ destPort 65535 :=
  ⟨by decide, by decide, by decide, by decide, by decide, by decide,
    (destPort_unique true 65536 0 65535 (by decide) (by decide) (by decide) (by decide)).2.2.2.2⟩

/-- C8: on either transport, the start time scheduled for station `i` is
`1.5 + i * 0.01`, so its offset is exactly `i * 0.01` seconds, and offsets (and start
times) strictly increase with the station index; for 5 stations the offsets are
0.00, 0.01, 0.02, 0.03, 0.04. -/
theorem startOffset_spec (useUdp : Bool) (nStas i : Nat) (hi : i < nStas) :
    (clientStartTimes useUdp nStas)[i]? = some (1.5 + (i : ℚ) * 0.01) ∧
    startOffset i = (i : ℚ) * 0.01 ∧
    (∀ j, i < j → j < nStas → startOffset i < startOffset j ∧ startTime i < startTime j) ∧
    (clientStartTimes useUdp 5).map (fun t => t - 1.5) = [0.00, 0.01, 0.02, 0.03, 0.04] := by
  refine ⟨?_, ?_, ?_, ?_⟩
  · cases useUdp <;> simp [clientStartTimes, getElem_opt_map_range _ _ _ hi, startTime]
  · simp [startOffset, startTime]
  · intro j hij _
    have : (i : ℚ) < (j : ℚ) := by exact_mod_cast hij
    simp only [startOffset, startTime]
    constructor <;> norm_num <;> linarith
  · cases useUdp <;>
      norm_num [clientStartTimes, List.range_succ, startTime]

/-- Instance of C8: station 3 of 5 on UDP starts at 1.53, an offset of 0.03. -/
theorem startOffset_spec_witness :
    (3 : Nat) < 5 ∧ (clientStartTimes true 5)[3]? = some (1.5 + ((3 : Nat) : ℚ) * 0.01) ∧
    startOffset 3 = ((3 : Nat) : ℚ) * 0.01 :=
  ⟨by decide, (startOffset_spec true 5 3 (by decide)).1, (startOffset_spec true 5 3 (by decide)).2.1⟩


/-! ## Fairness index -/

/-- C3, as it fails: the fairness of the one-element vector holding 1 (one copy of a
positive value) is 1000000000000/1000000000001, not 1. -/
theorem ComputeJainFairness_single_one_ne_one :
    ComputeJainFairness (List.replicate 1 (1 : ℚ)) = 1000000000000 / 1000000000001 ∧
    ComputeJainFairness (List.replicate 1 (1 : ℚ)) ≠ 1.0 ∧
    ComputeJainFairness [(1 : ℚ)] ≠ 1.0 := by
  norm_num [ComputeJainFairness, jainDenominator, jainLoop, jainStep]

/-- C3, amended: for `n ≥ 1` copies of a nonzero (in particular a positive) value `v`,
and so for a one-element vector holding a nonzero value, the fairness is
`(n·v)² / ((n·v)² + 1e-12)`: below 1, and short of 1 by less than `1e-12 / (n·v)²`. -/
theorem ComputeJainFairness_equal_values (n : ℕ) (v : ℚ) (hn : 1 ≤ n) (hv : v ≠ 0) :
    ComputeJainFairness (List.replicate n v) =
      (((n : ℚ) * v) * ((n : ℚ) * v)) / (((n : ℚ) * v) * ((n : ℚ) * v) + 1e-12) ∧
    ComputeJainFairness (List.replicate n v) < 1 ∧
    1 - 1e-12 / (((n : ℚ) * v) * ((n : ℚ) * v)) < ComputeJainFairness (List.replicate n v) ∧
    ComputeJainFairness [v] = (v * v) / (v * v + 1e-12) := by
  have hn0 : (n : ℚ) ≠ 0 := by
    have : (1 : ℚ) ≤ (n : ℚ) := by exact_mod_cast hn
    linarith
  have hs : 0 < ((n : ℚ) * v) * ((n : ℚ) * v) :=
    mul_self_pos.2 (mul_ne_zero hn0 hv)
  have he := eps_pos
  refine ⟨ComputeJainFairness_replicate n v hn, ComputeJainFairness_lt_one _, ?_, ?_⟩
  · rw [ComputeJainFairness_replicate n v hn]
    generalize ((n : ℚ) * v) * ((n : ℚ) * v) = s at hs
    rw [sub_lt_iff_lt_add, ← sub_lt_iff_lt_add']
    have h1 : 1 - s / (s + 1e-12) = 1e-12 / (s + 1e-12) := by
      field_simp
    rw [h1]
    exact div_lt_div_of_pos_left he hs (by linarith)
  · have := ComputeJainFairness_replicate 1 v le_rfl
    simpa using this

/-- Instance of the amended C3 at three copies of 2. -/
theorem ComputeJainFairness_equal_values_witness :
    1 ≤ 3 ∧ (2 : ℚ) ≠ 0 ∧
    ComputeJainFairness (List.replicate 3 (2 : ℚ)) =
      (((3 : ℕ) : ℚ) * 2 * (((3 : ℕ) : ℚ) * 2)) / (((3 : ℕ) : ℚ) * 2 * (((3 : ℕ) : ℚ) * 2) + 1e-12) :=
  ⟨by decide, by norm_num, (ComputeJainFairness_equal_values 3 2 (by decide) (by norm_num)).1⟩

/-- C4, as it fails: the vector (1, 1) is non-empty, non-negative and has all elements
equal, yet its fairness is not 1: it is 4000000000000/4000000000001 in exact
arithmetic and 9007199254738740 · 2^-53 (0.99999999999975) in binary64; and the
non-empty non-negative vector (0) has fairness 0, outside (0, 1]. -/
theorem ComputeJainFairness_equal_pair_ne_one :
    ([(1 : ℚ), 1] ≠ []) ∧ (∀ v ∈ [(1 : ℚ), 1], 0 ≤ v) ∧
    (∀ u ∈ [(1 : ℚ), 1], ∀ v ∈ [(1 : ℚ), 1], u = v) ∧
    ComputeJainFairness [(1 : ℚ), 1] = 4000000000000 / 4000000000001 ∧
    ComputeJainFairness [(1 : ℚ), 1] ≠ 1 ∧
    ComputeJainFairness [(0 : ℚ)] = 0 ∧
    ComputeJainFairnessDouble [Dbl.ofNat 1, Dbl.ofNat 1] =
      Dbl.fin false 9007199254738740 (-53) ∧
    ComputeJainFairnessDouble [Dbl.ofNat 1, Dbl.ofNat 1] ≠ Dbl.ofNat 1 ∧
    ComputeJainFairnessDouble [Dbl.ofNat 0] = Dbl.fin false 0 0 := by
  refine ⟨by simp, by simp, by simp, ?_, ?_, ?_, by decide!, by decide!, by decide!⟩ <;>
    norm_num [ComputeJainFairness, jainDenominator, jainLoop, jainStep]

/-- C4, amended.  In exact arithmetic: for every non-empty vector of non-negative
values the fairness lies in [0, 1), it is positive exactly when some element is
positive, it is at most `(Σx)² / ((Σx)² + 1e-12)`, and it reaches that value exactly
when all elements are equal.  In binary64 arithmetic the value returned does not
separate equal from unequal vectors: the all-equal (100, 100, 100) gives exactly 1.0,
and so does (50, 50.0000001, 49.9999999), whose elements differ. -/
theorem ComputeJainFairness_range :
    (∀ x : List ℚ, x ≠ [] → (∀ v ∈ x, 0 ≤ v) →
      0 ≤ ComputeJainFairness x ∧ ComputeJainFairness x < 1 ∧
      (0 < ComputeJainFairness x ↔ ∃ v ∈ x, 0 < v) ∧
      ComputeJainFairness x ≤ (x.sum * x.sum) / (x.sum * x.sum + 1e-12) ∧
      (ComputeJainFairness x = (x.sum * x.sum) / (x.sum * x.sum + 1e-12) ↔
        ∀ u ∈ x, ∀ v ∈ x, u = v)) ∧
    ComputeJainFairnessDouble [Dbl.ofNat 100, Dbl.ofNat 100, Dbl.ofNat 100] = Dbl.ofNat 1 ∧
    Dbl.round false 500000001 10000000 ≠ Dbl.ofNat 50 ∧
    Dbl.round false 499999999 10000000 ≠ Dbl.ofNat 50 ∧
    ComputeJainFairnessDouble
      [Dbl.ofNat 50, Dbl.round false 500000001 10000000, Dbl.round false 499999999 10000000]
      = Dbl.ofNat 1 := by
  refine ⟨?_, by decide!, by decide!, by decide!, by decide!⟩
  intro x hne hx
  have hg := csGap_nonneg x
  have hs := mul_self_nonneg x.sum
  have he := eps_pos
  have hform := ComputeJainFairness_of_ne_nil x hne
  refine ⟨ComputeJainFairness_nonneg x, ComputeJainFairness_lt_one x, ?_, ?_, ?_⟩
  · rw [← sum_pos_iff_of_nonneg x hx, hform]
    constructor
    · intro h hz
      rw [hz] at h
      simp at h
    · intro h
      exact div_pos (mul_self_pos.2 h) (by linarith)
  · rw [hform]
    exact div_le_div_of_nonneg_left hs (by linarith) (by linarith)
  · rw [← csGap_eq_zero_iff, hform]
    constructor
    · intro h
      by_cases hz : x.sum = 0
      · have hall := sum_eq_zero_of_nonneg x hx hz
        exact (csGap_eq_zero_iff x).2 (fun u hu v hv => by rw [hall u hu, hall v hv])
      · have hpos : 0 < x.sum * x.sum := mul_self_pos.2 hz
        rw [div_eq_div_iff (by linarith) (by linarith)] at h
        have h2 : x.sum * x.sum * csGap x = 0 := by linarith
        rcases mul_eq_zero.1 h2 with h3 | h3
        · exact absurd h3 (ne_of_gt hpos)
        · exact h3
    · intro h
      rw [h, add_zero]

/-- Instance of the amended C4 at the vector (1, 3), in exact arithmetic. -/
theorem ComputeJainFairness_range_witness :
    ([(1 : ℚ), 3] ≠ []) ∧ (∀ v ∈ [(1 : ℚ), 3], 0 ≤ v) ∧
    0 ≤ ComputeJainFairness [(1 : ℚ), 3] ∧ ComputeJainFairness [(1 : ℚ), 3] < 1 :=
  ⟨by simp, by norm_num,
    (ComputeJainFairness_range.1 [1, 3] (by simp) (by norm_num)).1,
    (ComputeJainFairness_range.1 [1, 3] (by simp) (by norm_num)).2.1⟩

/-- C10, as it fails: for three flows of 22.6 Mbps (the double nearest to 22.6) the
fairness the program returns is 4503599627370497 · 2^-52 = 1 + 2^-52
(1.0000000000000002), which exceeds 1. -/
theorem ComputeJainFairnessDouble_exceeds_one :
    ComputeJainFairnessDouble (List.replicate 3 (Dbl.round false 226 10)) =
      Dbl.fin false 4503599627370497 (-52) ∧
    Dbl.lt (Dbl.ofNat 1) (ComputeJainFairnessDouble (List.replicate 3 (Dbl.round false 226 10)))
      = true ∧
    (ComputeJainFairnessDouble (List.replicate 3 (Dbl.round false 226 10))).toRat =
      some (1 + 1 / 2 ^ 52) := by
  have h : ComputeJainFairnessDouble (List.replicate 3 (Dbl.round false 226 10)) =
      Dbl.fin false 4503599627370497 (-52) := by decide!
  refine ⟨h, by decide!, ?_⟩
  rw [h]
  norm_num [Dbl.toRat]

/-- C10, amended.  In exact arithmetic: for every vector, of any length and signs,
the fairness is at least 0 and strictly below 1, the loop's values satisfy
`sum² ≤ n · sumSq`, and the divisor `n · sumSq + 1e-12` is positive, hence never
zero.  The rounded value the program returns is not held below 1: in binary64
arithmetic it is exactly 1.0 for twenty flows of 10.0, and it is NaN for the
one-element vector (1e200). -/
theorem ComputeJainFairness_bounds :
    (∀ x : List ℚ,
      0 ≤ ComputeJainFairness x ∧ ComputeJainFairness x < 1 ∧
      (jainLoop x).sum * (jainLoop x).sum ≤ (x.length : ℚ) * (jainLoop x).sumSq ∧
      0 < jainDenominator x ∧ jainDenominator x ≠ 0) ∧
    ComputeJainFairnessDouble (List.replicate 20 (Dbl.ofNat 10)) = Dbl.ofNat 1 ∧
    ComputeJainFairnessDouble [Dbl.round false (10 ^ 200) 1] = Dbl.nan := by
  refine ⟨?_, by decide!, by decide!⟩
  intro x
  refine ⟨ComputeJainFairness_nonneg x, ComputeJainFairness_lt_one x, ?_,
    jainDenominator_pos x, ne_of_gt (jainDenominator_pos x)⟩
  rw [jainLoop_sum, jainLoop_sumSq]
  have := csGap_nonneg x
  unfold csGap at this
  linarith

/-! ## Aggregation -/

theorem flowStep_of_ne_zero (eff : ℚ) (heff : eff ≠ 0) (t : Totals) (s : FlowStats) :
    flowStep eff t s =
      some (addCounters
        (if 0 < s.rxPackets then
          { t with
            perFlowMbps := t.perFlowMbps ++ [((s.rxBytes : ℚ) * 8) / (eff * 1000000)]
            aggThroughputMbps :=
              t.aggThroughputMbps + ((s.rxBytes : ℚ) * 8) / (eff * 1000000) }
        else t) s) := by
  have e6 : (1e6 : ℚ) = 1000000 := by norm_num
  have e8 : (8.0 : ℚ) = 8 := by norm_num
  have h6 : eff * 1000000 ≠ 0 := mul_ne_zero heff (by norm_num)
  unfold flowStep divDouble
  by_cases hrx : 0 < s.rxPackets
  · simp only [gt_iff_lt, hrx, if_true, e6, e8, if_neg h6]
  · simp only [gt_iff_lt, hrx, if_false]

theorem specPerFlowMbps_cons (eff : ℚ) (s : FlowStats) (rest : List FlowStats) :
    specPerFlowMbps eff (s :: rest) =
      (if 0 < s.rxPackets then [((s.rxBytes : ℚ) * 8) / (eff * 1000000)] else []) ++
        specPerFlowMbps eff rest := by
  unfold specPerFlowMbps
  by_cases hrx : 0 < s.rxPackets
  · simp [List.filter_cons, hrx]
  · simp [List.filter_cons, hrx]

theorem flowLoop_spec (eff : ℚ) (heff : eff ≠ 0) (stats : List FlowStats) :
    ∀ t : Totals,
      t.totalRxPackets + specTotal FlowStats.rxPackets stats < 2 ^ 64 →
      t.totalTxPackets + specTotal FlowStats.txPackets stats < 2 ^ 64 →
      t.totalLostPackets + specTotal FlowStats.lostPackets stats < 2 ^ 64 →
      ∃ r : Totals, flowLoop eff t stats = some r ∧
        r.aggThroughputMbps = t.aggThroughputMbps + (specPerFlowMbps eff stats).sum ∧
        r.perFlowMbps = t.perFlowMbps ++ specPerFlowMbps eff stats ∧
        r.totalDelaySec = t.totalDelaySec + (stats.map FlowStats.delaySum).sum ∧
        r.totalRxPackets = t.totalRxPackets + specTotal FlowStats.rxPackets stats ∧
        r.totalTxPackets = t.totalTxPackets + specTotal FlowStats.txPackets stats ∧
        r.totalLostPackets = t.totalLostPackets + specTotal FlowStats.lostPackets stats := by
  induction stats with
  | nil =>
    intro t _ _ _
    exact ⟨t, rfl, by simp [specPerFlowMbps], by simp [specPerFlowMbps], by simp,
      by simp [specTotal], by simp [specTotal], by simp [specTotal]⟩
  | cons s rest ih =>
    intro t hrx htx hlost
    simp only [specTotal, List.map_cons, List.sum_cons] at hrx htx hlost
    have mrx : (t.totalRxPackets + s.rxPackets) % 2 ^ 64 = t.totalRxPackets + s.rxPackets :=
      Nat.mod_eq_of_lt (by omega)
    have mtx : (t.totalTxPackets + s.txPackets) % 2 ^ 64 = t.totalTxPackets + s.txPackets :=
      Nat.mod_eq_of_lt (by omega)
    have mlost : (t.totalLostPackets + s.lostPackets) % 2 ^ 64
        = t.totalLostPackets + s.lostPackets :=
      Nat.mod_eq_of_lt (by omega)
    obtain ⟨r, hr, hagg, hper, hdelay, hrx2, htx2, hlost2⟩ :=
      ih (addCounters
        (if 0 < s.rxPackets then
          { t with
            perFlowMbps := t.perFlowMbps ++ [((s.rxBytes : ℚ) * 8) / (eff * 1000000)]
            aggThroughputMbps :=
              t.aggThroughputMbps + ((s.rxBytes : ℚ) * 8) / (eff * 1000000) }
        else t) s)
        (by
          simp only [addCounters, specTotal] at *
          split <;> simp only [mrx] <;> omega)
        (by
          simp only [addCounters, specTotal] at *
          split <;> simp only [mtx] <;> omega)
        (by
          simp only [addCounters, specTotal] at *
          split <;> simp only [mlost] <;> omega)
    refine ⟨r, ?_, ?_, ?_, ?_, ?_, ?_, ?_⟩
    · simp only [flowLoop, flowStep_of_ne_zero eff heff]
      exact hr
    · rw [hagg, specPerFlowMbps_cons]
      by_cases h : 0 < s.rxPackets
      · simp [addCounters, h]; ring
      · simp [addCounters, h]
    · rw [hper, specPerFlowMbps_cons]
      by_cases h : 0 < s.rxPackets
      · simp [addCounters, h]
      · simp [addCounters, h]
    · rw [hdelay]
      by_cases h : 0 < s.rxPackets
      · simp [addCounters, h]; ring
      · simp [addCounters, h]; ring
    · rw [hrx2]
      simp only [specTotal, List.map_cons, List.sum_cons]
      by_cases h : 0 < s.rxPackets
      · simp only [addCounters, h, if_true, mrx]; omega
      · simp only [addCounters, h, if_false, mrx]; omega
    · rw [htx2]
      simp only [specTotal, List.map_cons, List.sum_cons]
      by_cases h : 0 < s.rxPackets
      · simp only [addCounters, h, if_true, mtx]; omega
      · simp only [addCounters, h, if_false, mtx]; omega
    · rw [hlost2]
      simp only [specTotal, List.map_cons, List.sum_cons]
      by_cases h : 0 < s.rxPackets
      · simp only [addCounters, h, if_true, mlost]; omega
      · simp only [addCounters, h, if_false, mlost]; omega

theorem specTotal_le (f : FlowStats → Nat) (stats : List FlowStats) (b : Nat)
    (h : ∀ s ∈ stats, f s ≤ b) : specTotal f stats ≤ stats.length * b := by
  induction stats with
  | nil => simp [specTotal]
  | cons s rest ih =>
    have hs : f s ≤ b := h s (List.mem_cons_self _ _)
    have hrest := ih (fun u hu => h u (List.mem_cons_of_mem _ hu))
    simp only [specTotal, List.map_cons, List.sum_cons, List.length_cons] at hrest ⊢
    rw [Nat.add_mul, Nat.one_mul]
    omega

theorem countersFit_of_uint32 (stats : List FlowStats) (hlen : stats.length ≤ 2 ^ 32)
    (h : ∀ s ∈ stats, s.rxPackets < 2 ^ 32 ∧ s.txPackets < 2 ^ 32 ∧ s.lostPackets < 2 ^ 32) :
    CountersFit stats := by
  have key : ∀ f : FlowStats → Nat, (∀ s ∈ stats, f s < 2 ^ 32) →
      specTotal f stats < 2 ^ 64 := by
    intro f hf
    have h1 := specTotal_le f stats (2 ^ 32 - 1) (fun s hs => by have := hf s hs; omega)
    have h2 : stats.length * (2 ^ 32 - 1) ≤ 2 ^ 32 * (2 ^ 32 - 1) :=
      Nat.mul_le_mul_right _ hlen
    have h3 : 2 ^ 32 * (2 ^ 32 - 1) < 2 ^ 64 := by norm_num
    omega
  exact ⟨key _ (fun s hs => (h s hs).1), key _ (fun s hs => (h s hs).2.1),
    key _ (fun s hs => (h s hs).2.2)⟩

/-- C5: for every `simTime > 2.0` and every list of flow records whose packet totals
fit the 64-bit counters, the aggregator does produce a report and it is the report of
the reference definition: throughput summed over the flows with `rxPackets > 0`,
fairness of exactly those throughputs, and average delay, loss and success rate from
the totals over all records with their zero-total fallbacks. -/
theorem aggregate_eq_specReport (simTime : ℚ) (stats : List FlowStats)
    (hsim : 2.0 < simTime) (hfit : CountersFit stats) :
    aggregate simTime stats = some (specReport simTime stats) := by
  have e2 : (2.0 : ℚ) = 2 := by norm_num
  rw [e2] at hsim
  have heff : simTime - 2 ≠ 0 := by linarith
  obtain ⟨hrx, htx, hlost⟩ := hfit
  obtain ⟨r, hr, hagg, hper, hdelay, hrx2, htx2, hlost2⟩ :=
    flowLoop_spec (simTime - 2) heff stats Totals.init
      (by simpa [Totals.init] using hrx) (by simpa [Totals.init] using htx)
      (by simpa [Totals.init] using hlost)
  simp only [Totals.init, List.nil_append, Nat.zero_add] at hagg hper hdelay hrx2 htx2 hlost2
  have e0 : (0.0 : ℚ) = 0 := by norm_num
  rw [e0, zero_add] at hagg hdelay
  have e1000 : (1000.0 : ℚ) = 1000 := by norm_num
  have e100 : (100.0 : ℚ) = 100 := by norm_num
  simp only [aggregate, e2, hr, summarize, specReport, hagg, hper, hdelay, hrx2, htx2, hlost2,
    e0, e1000, e100, gt_iff_lt]

/-- Instance of C5, the worked example: the single record tx 100, rx 100, 125000
bytes, 0 lost, delay 0.1 with `simTime = 10` gives throughput 0.125 Mbps, average
delay 1.0 ms, loss 0 and success rate 100. -/
theorem aggregate_eq_specReport_witness :
    (2.0 : ℚ) < 10 ∧ CountersFit [exampleFlow] ∧
    aggregate 10 [exampleFlow] = some (specReport 10 [exampleFlow]) ∧
    (specReport 10 [exampleFlow]).aggThroughputMbps = 0.125 ∧
    (specReport 10 [exampleFlow]).avgDelayMs = 1.0 ∧
    (specReport 10 [exampleFlow]).lossPct = 0 ∧
    (specReport 10 [exampleFlow]).successRate = 100 ∧
    (specReport 10 [exampleFlow]).totalRxPackets = 100 ∧
    (specReport 10 [exampleFlow]).totalTxPackets = 100 :=
  ⟨by norm_num, by decide,
    aggregate_eq_specReport 10 [exampleFlow] (by norm_num) (by decide),
    by norm_num [specReport, specPerFlowMbps, specTotal, exampleFlow],
    by norm_num [specReport, specPerFlowMbps, specTotal, exampleFlow],
    by norm_num [specReport, specPerFlowMbps, specTotal, exampleFlow],
    by norm_num [specReport, specPerFlowMbps, specTotal, exampleFlow],
    by simp [specReport, specTotal, exampleFlow],
    by simp [specReport, specTotal, exampleFlow]⟩

/-- C6, where the code departs from it: with `simTime = 2.0` and one flow that
received packets the throughput division is executed with divisor zero and has no
finite result, and with `simTime = 1.0` it is executed with a negative divisor and the
reported throughput is -1 Mbps. -/
theorem aggregate_unguarded_duration :
    (2.0 : ℚ) - 2.0 = 0 ∧ aggregate 2.0 [exampleFlow] = none ∧
    (1.0 : ℚ) - 2.0 < 0 ∧
    (aggregate 1.0 [exampleFlow]).map Report.aggThroughputMbps = some (-1) := by
  refine ⟨by norm_num, ?_, by norm_num, ?_⟩
  · norm_num [aggregate, flowLoop, flowStep, divDouble, exampleFlow]
  · norm_num [aggregate, flowLoop, flowStep, divDouble, exampleFlow, Totals.init,
      addCounters, summarize]

/-- C9: for every `simTime`, with no flow records the aggregator produces a report
and every figure in it is 0; the fairness of the empty vector is 0. -/
theorem aggregate_nil (simTime : ℚ) :
    aggregate simTime [] =
      some { aggThroughputMbps := 0, avgDelayMs := 0, lossPct := 0, fairness := 0,
             totalRxPackets := 0, totalTxPackets := 0, successRate := 0 } ∧
    ComputeJainFairness [] = 0.0 ∧ ComputeJainFairness [] = 0 := by
  refine ⟨?_, ?_, ?_⟩
  · norm_num [aggregate, flowLoop, Totals.init, summarize, ComputeJainFairness]
  · simp [ComputeJainFairness]
  · norm_num [ComputeJainFairness]

end WifiCompare
